import Mathlib

/-!
Verification of the spiral-piano decay-animation engine against its design
specification.  The definitions below are a shallow embedding of the
interactive piano scripts: the `V25` namespace models the final revision
(`v25.py`, the master-tick scheduler), the `V11` namespace models the polar
hit tester of `v11.py`, and the `Geometry` namespace models the spiral
geometry.  Times, alphas and radial factors are modelled as rationals where
the source only ever combines them by field operations; the spiral geometry
and the logarithmic hit test are modelled over the reals.
-/

namespace SpiralPiano

/-- Identity of one clickable note: `(octave_idx, semitone_idx)` as used for
the keys of `notes_data` in the source. -/
structure NoteKey where
  octave : Nat
  semitone : Nat
deriving DecidableEq, Repr

/-- Mutable per-note visual and logical state: the `highlighted` flag stored
in `notes_data`, and the alpha, visibility and radial scale factor of the
note's `Line2D` (`set_ydata(base_r * factor)` is recorded as `rFactor`). -/
structure NoteState where
  highlighted : Bool
  alpha : ℚ
  visible : Bool
  rFactor : ℚ
deriving DecidableEq, Repr

/-- One entry of `active_decay_animations`: `(note_key, start_time, duration,
decay_end_factor, line_obj)`; the line object is identified by its key. -/
structure DecayInfo where
  key : NoteKey
  startTime : ℚ
  duration : ℚ
  endFactor : ℚ
deriving DecidableEq, Repr

namespace V25

/-- Whole-program mutable state of `InteractiveSpiralPiano` in `v25.py`:
the `enable_animation` flag, the per-note states, `active_notes_list`
(a list of note-name strings in insertion order) and
`active_decay_animations`. -/
structure PianoState where
  enableAnim : Bool
  notes : NoteKey → NoteState
  activeNotes : List String
  decays : List DecayInfo

/-- The twelve semitone names of `self.semitone_names` (split in two halves
to keep each line short; the value is the full chromatic list). -/
def semitoneNames : List String :=
  ["C", "C#", "D", "D#", "E", "F"] ++ ["F#", "G", "G#", "A", "A#", "B"]

/-- Source `_get_note_name`: semitone name followed by `octave_idx + 1`. -/
def noteName (k : NoteKey) : String :=
  String.append (semitoneNames.getD k.semitone ("")) (Nat.repr (k.octave + 1))

/-- Iteration order of `notes_data` (insertion order: octaves 0..4, each with
semitones 0..11), as built by `_draw_notes_segments`. -/
def allKeys : List NoteKey :=
  ((List.range 5).map fun o => (List.range 12).map fun s => NoteKey.mk o s).flatten

/-- Initial state of every note: invisible, alpha `0.0`, un-highlighted,
line data at the base radii. -/
def initNote : NoteState :=
  { highlighted := false, alpha := 0, visible := false, rFactor := 1 }

/-- State right after `__init__`: no active notes, no decay tasks. -/
def initState (anim : Bool) : PianoState :=
  { enableAnim := anim, notes := fun _ => initNote, activeNotes := [], decays := [] }

/-- Pointwise update of the per-note state map at one key. -/
def setNote (f : NoteKey → NoteState) (k : NoteKey) (n : NoteState) :
    NoteKey → NoteState :=
  fun j => if j = k then n else f j

/-- Removal of the first entry of the task list whose key matches the target,
as performed by the search-and-`remove` in `_cancel_decay_animation_for_note`. -/
def removeFirstWithKey (l : List DecayInfo) (target : NoteKey) : List DecayInfo :=
  match l with
  | [] => []
  | d :: rest =>
      if d.key = target then rest else d :: removeFirstWithKey rest target

/-- Python `list.remove`: drop the first occurrence of the given element
(identity on lists not containing it, matching the guarded `remove` calls). -/
def eraseFirst (l : List DecayInfo) (d : DecayInfo) : List DecayInfo :=
  match l with
  | [] => []
  | x :: rest => if x = d then rest else x :: eraseFirst rest d

/-- Source `_cancel_decay_animation_for_note(target, set_invisible)`: if some
task for the target exists, optionally blank the line, clear the
`highlighted` flag and remove the first matching task. -/
def cancelDecayForNote (st : PianoState) (target : NoteKey) (setInvisible : Bool) :
    PianoState :=
  if st.decays.any (fun d => d.key == target) then
    let n0 := st.notes target
    let n1 := if setInvisible then { n0 with alpha := 0, visible := false } else n0
    { st with
      notes := setNote st.notes target { n1 with highlighted := false },
      decays := removeFirstWithKey st.decays target }
  else st

/-- The decay task appended by `_add_note_to_decay_queue`: duration `0.5`,
end radial factor `0.5`, started at the current wall-clock time. -/
def mkDecay (k : NoteKey) (now : ℚ) : DecayInfo :=
  { key := k, startTime := now, duration := (1:ℚ)/2, endFactor := (1:ℚ)/2 }

/-- Source `_add_note_to_decay_queue`: cancel any existing task for the note
(with `set_invisible=False`), then append a fresh task. -/
def addNoteToDecayQueue (st : PianoState) (k : NoteKey) (now : ℚ) : PianoState :=
  let st1 := cancelDecayForNote st k false
  { st1 with decays := st1.decays ++ [mkDecay k now] }

/-- Body of the `_on_click` loop once `line_obj.contains(event)` has succeeded
for key `k`: cancel any decay, then either light the note (appending its name
and, in animation mode, scheduling a decay task) or un-highlight it. -/
def handleClick (st : PianoState) (k : NoteKey) (now : ℚ) : PianoState :=
  let st1 := cancelDecayForNote st k true
  let data := st1.notes k
  if !data.highlighted then
    let st2 := { st1 with
      notes := setNote st1.notes k
        { data with highlighted := true, rFactor := 1, alpha := 1, visible := true } }
    let nm := noteName k
    let st3 := { st2 with
      activeNotes :=
        if st2.activeNotes.contains nm then st2.activeNotes
        else st2.activeNotes ++ [nm] }
    if st3.enableAnim then addNoteToDecayQueue st3 k now else st3
  else
    let st2 := { st1 with
      notes := setNote st1.notes k
        { data with highlighted := false, alpha := 0, visible := false } }
    { st2 with activeNotes := st2.activeNotes.erase (noteName k) }

/-- Source `_on_click`: walk `notes_data` in iteration order, handle the first
note whose line contains the pointer, then return; a click hitting no line
falls through with no effect. -/
def onClick (st : PianoState) (hit : NoteKey → Bool) (now : ℚ) : PianoState :=
  match allKeys.find? hit with
  | some k => handleClick st k now
  | none => st

/-- Body of the `_trigger_batch_decay` loop for one snapshotted key: reset the
line to the base radii at full alpha, make it visible, and enqueue a task. -/
def batchStep (now : ℚ) (s : PianoState) (k : NoteKey) : PianoState :=
  let s1 := { s with
    notes := setNote s.notes k
      { s.notes k with rFactor := 1, alpha := 1, visible := true } }
  addNoteToDecayQueue s1 k now

/-- Source `_trigger_batch_decay(force_animation)`: early return unless
animation is enabled or forced; otherwise snapshot the highlighted keys,
clear `active_notes_list`, and relight and enqueue each snapshotted key. -/
def triggerBatchDecay (st : PianoState) (forceAnim : Bool) (now : ℚ) : PianoState :=
  if !st.enableAnim && !forceAnim then st
  else
    let keysToDecay := allKeys.filter (fun k => (st.notes k).highlighted)
    let st1 := { st with activeNotes := [] }
    keysToDecay.foldl (batchStep now) st1

/-- Source `_recreate_background`: hide every line, then restore visibility
(and full alpha) for highlighted notes when animation is off. -/
def recreateBackground (st : PianoState) : PianoState :=
  { st with
    notes := fun k =>
      let n := st.notes k
      if n.highlighted && !st.enableAnim then { n with visible := true, alpha := 1 }
      else { n with visible := false } }

/-- Body of the `_update_decay_animations` loop for one `decay_info` entry:
either apply the interpolated visual state (`progress < 1`) or blank the
note, clear its flag and mark the task for removal; the accumulator carries
the evolving state and `notes_to_remove_from_queue`. -/
def tickStep (now : ℚ) (acc : PianoState × List DecayInfo) (d : DecayInfo) :
    PianoState × List DecayInfo :=
  let s := acc.1
  let progress := min 1 ((now - d.startTime) / d.duration)
  if progress < 1 then
    ({ s with
        notes := setNote s.notes d.key
          { s.notes d.key with
              rFactor := 1 - progress * (1 - d.endFactor),
              alpha := 1 - progress,
              visible := true } },
      acc.2)
  else
    ({ s with
        notes := setNote s.notes d.key
          { s.notes d.key with alpha := 0, visible := false, highlighted := false } },
      acc.2 ++ [d])

/-- Source `_update_decay_animations` (one master tick at wall-clock `now`):
process every task in order, then remove the completed tasks from the list. -/
def tickUpdate (st : PianoState) (now : ℚ) : PianoState :=
  let res := st.decays.foldl (tickStep now) (st, ([] : List DecayInfo))
  { res.1 with decays := res.2.foldl (fun l d => eraseFirst l d) res.1.decays }

/-- Input events of the interactive loop: a pointer press (abstracted by the
set of lines containing it), the spacebar, the `a` mode toggle, and one frame
tick, each stamped with the wall-clock time at which it is processed. -/
inductive Event where
  | click (hit : NoteKey → Bool) (now : ℚ)
  | keySpace (now : ℚ)
  | keyToggle (now : ℚ)
  | tick (now : ℚ)

/-- Source `_on_key_press` for the `a` key: recapture the background (under
the old mode), flip `enable_animation`, and batch-decay with
`force_animation=True` when turning animation on with active notes. -/
def onKeyToggle (st : PianoState) (now : ℚ) : PianoState :=
  let st0 := recreateBackground st
  let st1 := { st0 with enableAnim := !st0.enableAnim }
  if st1.enableAnim && !st1.activeNotes.isEmpty then triggerBatchDecay st1 true now
  else st1

/-- One step of the event loop, dispatching to the source handlers. -/
def step (st : PianoState) : Event → PianoState
  | Event.click hit now => onClick st hit now
  | Event.keySpace now =>
      if !st.enableAnim then triggerBatchDecay st false now else st
  | Event.keyToggle now => onKeyToggle st now
  | Event.tick now => tickUpdate st now

/-- Run of the event loop from a state through a list of events. -/
def run (st : PianoState) (evs : List Event) : PianoState :=
  evs.foldl step st

/-- Python `str.rstrip` with argument a hash sign: drop every trailing hash
character. -/
def rstripHash (s : String) : String :=
  String.mk ((s.data.reverse.dropWhile (fun c => c == '#')).reverse)

/-- Sort key used by `_update_status_display`: the tuple
`(x[-1], semitone_names.index(x[:-1].rstrip(hash)))`. -/
def pyKey (x : String) : Char × Nat :=
  (x.back, semitoneNames.indexOf (rstripHash (x.dropRight 1)))

/-- Strict lexicographic comparison of Python sort-key tuples. -/
def pyKeyLt (a c : Char × Nat) : Bool :=
  decide (a.1 < c.1) || (decide (a.1 = c.1) && decide (a.2 < c.2))

/-- Stable insertion of one element into an already key-sorted list: it goes
before the first strictly greater element, hence after all equals. -/
def insertByKey (x : String) : List String → List String
  | [] => [x]
  | y :: ys => if pyKeyLt (pyKey x) (pyKey y) then x :: y :: ys else y :: insertByKey x ys

/-- Python `sorted` with the status-display key function: a stable sort. -/
def pySorted (l : List String) : List String :=
  l.foldl (fun acc x => insertByKey x acc) []

/-- Text produced by `_update_status_display` from a given
`active_notes_list` contents. -/
def statusOf (l : List String) : String :=
  if l.isEmpty then "Active Notes: None"
  else String.append ("Active Notes: ") (String.intercalate (", ") (pySorted l))

/-- Text produced by `_update_status_display` from the current state. -/
def statusText (st : PianoState) : String :=
  statusOf st.activeNotes

/-- Tasks currently scheduled for one key. -/
def tasksFor (st : PianoState) (k : NoteKey) : List DecayInfo :=
  st.decays.filter (fun d => d.key == k)

/-- Number of tasks currently scheduled for one key. -/
def countTasks (st : PianoState) (k : NoteKey) : Nat :=
  (tasksFor st k).length

/-- Registry invariant: at most one live decay task per key. -/
def InvTasks (st : PianoState) : Prop :=
  ∀ k, countTasks st k ≤ 1

/-- Pointer predicate selecting exactly one note's line. -/
def hitOn (k : NoteKey) : NoteKey → Bool :=
  fun j => j == k

/-- State after clicking C3 and then E3 with animation disabled. -/
def stC3E3 : PianoState :=
  run (initState false)
    [Event.click (hitOn (NoteKey.mk 2 0)) 0, Event.click (hitOn (NoteKey.mk 2 4)) 0]

/-- State after clicking C3 with animation enabled at time `0`. -/
def stClickedC3 : PianoState :=
  run (initState true) [Event.click (hitOn (NoteKey.mk 2 0)) 0]

/-- State after clicking C3 twice in a row with animation enabled. -/
def stDoubleC3 : PianoState :=
  run (initState true)
    [Event.click (hitOn (NoteKey.mk 2 0)) 0, Event.click (hitOn (NoteKey.mk 2 0)) 0]

/-- State after clicking C#3 and then C3 with animation disabled. -/
def stCs3C3 : PianoState :=
  run (initState false)
    [Event.click (hitOn (NoteKey.mk 2 1)) 0, Event.click (hitOn (NoteKey.mk 2 0)) 0]

end V25

namespace V11

/-- Python `int(x)` on a real value: truncation toward zero. -/
noncomputable def pyInt (x : ℝ) : ℤ :=
  if 0 ≤ x then ⌊x⌋ else ⌈x⌉

/-- Python float `x % m`: the representative of `x` modulo `m` carrying the
sign of the divisor, used to normalize `event.xdata` into `[0, 2π)`. -/
noncomputable def pyMod (x m : ℝ) : ℝ :=
  x - m * ⌊x / m⌋

/-- Source `octave_idx = int(np.log2(clicked_r))` in `v11.py`. -/
noncomputable def octaveOfRadius (r : ℝ) : ℤ :=
  pyInt (Real.logb 2 r)

/-- Per-note state tracked by `v11.py`: the `highlighted` flag and the
line alpha toggled by `_on_click`. -/
structure V11Note where
  highlighted : Bool
  alpha : ℚ
deriving DecidableEq, Repr

/-- All notes start un-highlighted with fully transparent lines. -/
def v11Init : ℤ × ℕ → V11Note :=
  fun _ => { highlighted := false, alpha := 0 }

open Classical in
/-- Source semitone search of `v11.py`: the first sector index `i < 12` with
`angles[i] <= θ < angles[i+1]` (where `angles[i] = i·2π/12`), with the
`np.isclose(clicked_theta, angles[12])` fallback mapping to the last sector. -/
noncomputable def semitoneOfAngle (θ : ℝ) : Option ℕ :=
  match (List.range 12).find?
      (fun (i : ℕ) => decide ((i : ℝ) * (2 * Real.pi / 12) ≤ θ ∧
                        θ < ((i : ℝ) + 1) * (2 * Real.pi / 12))) with
  | some i => some i
  | none =>
      if |θ - 2 * Real.pi| ≤ 1 / 100000000 + (1 / 100000) * |2 * Real.pi| then some 11
      else none

open Classical in
/-- Source `_on_click` of `v11.py` for a left-button press inside the axes at
data coordinates `(xdata, ydata)`: normalize the angle, derive the octave by
`int(np.log2(r))`, search the semitone sector, and toggle the note when the
resolved pair is a key of `notes_data` (octaves 0..4). -/
noncomputable def v11OnClick (st : ℤ × ℕ → V11Note) (xdata ydata : ℝ) :
    (ℤ × ℕ) → V11Note :=
  let θ := pyMod xdata (2 * Real.pi)
  let o := octaveOfRadius ydata
  match semitoneOfAngle θ with
  | none => st
  | some s =>
      if 0 ≤ o ∧ o < 5 then
        fun j =>
          if j = (o, s) then
            let cur := (st (o, s)).highlighted
            { highlighted := !cur, alpha := if !cur then 1 else 0 }
          else st j
      else st

end V11

namespace Geometry

/-- Source spiral constant `self.b = np.log(2) / (2 * np.pi)`. -/
noncomputable def b : ℝ :=
  Real.log 2 / (2 * Real.pi)

/-- Source `total_start_theta = octave_idx * 2π + semitone_idx * (2π/12)`. -/
noncomputable def totalStartTheta (o s : ℕ) : ℝ :=
  (o : ℝ) * (2 * Real.pi) + (s : ℝ) * (2 * Real.pi / 12)

/-- Source `total_end_theta = octave_idx * 2π + (semitone_idx + 1) * (2π/12)`. -/
noncomputable def totalEndTheta (o s : ℕ) : ℝ :=
  (o : ℝ) * (2 * Real.pi) + ((s : ℝ) + 1) * (2 * Real.pi / 12)

/-- Source radial law `r = np.exp(self.b * theta)`. -/
noncomputable def radius (θ : ℝ) : ℝ :=
  Real.exp (b * θ)

end Geometry

namespace V25

theorem setNote_self (f : NoteKey → NoteState) (k : NoteKey) (n : NoteState) :
    setNote f k n k = n := by
  simp [setNote]

theorem setNote_ne (f : NoteKey → NoteState) (k : NoteKey) (n : NoteState)
    (j : NoteKey) (h : j ≠ k) : setNote f k n j = f j := by
  simp [setNote, h]

theorem filter_removeFirstWithKey_self (l : List DecayInfo) (k : NoteKey) :
    (removeFirstWithKey l k).filter (fun d => d.key == k) =
      (l.filter (fun d => d.key == k)).tail := by
  induction l with
  | nil => rfl
  | cons d rest ih =>
      by_cases h : d.key = k
      · simp [removeFirstWithKey, h, List.filter_cons]
      · simp [removeFirstWithKey, h, List.filter_cons, ih]

theorem filter_removeFirstWithKey_ne (l : List DecayInfo) (k j : NoteKey)
    (h : j ≠ k) :
    (removeFirstWithKey l k).filter (fun d => d.key == j) =
      l.filter (fun d => d.key == j) := by
  induction l with
  | nil => rfl
  | cons d rest ih =>
      by_cases hd : d.key = k
      · have hf : (d.key == j) = false := by
          simp [hd]
          exact fun hjk => h hjk.symm
        simp [removeFirstWithKey, hd, List.filter_cons, hf, Ne.symm h]
      · simp [removeFirstWithKey, hd, List.filter_cons, ih]

theorem eraseFirst_sublist (l : List DecayInfo) (d : DecayInfo) :
    (eraseFirst l d).Sublist l := by
  induction l with
  | nil => simp [eraseFirst]
  | cons x rest ih =>
      by_cases h : x = d
      · simp [eraseFirst, h]
      · simpa [eraseFirst, h] using ih.cons₂ x

theorem foldl_eraseFirst_sublist (rm l : List DecayInfo) :
    (rm.foldl (fun a d => eraseFirst a d) l).Sublist l := by
  induction rm generalizing l with
  | nil => simp
  | cons d rest ih =>
      exact (ih (eraseFirst l d)).trans (eraseFirst_sublist l d)

theorem any_eq_false_of_tasksFor_nil (st : PianoState) (k : NoteKey)
    (h : tasksFor st k = []) :
    st.decays.any (fun d => d.key == k) = false := by
  rw [List.any_eq_false]
  intro d hd
  intro hk
  have : d ∈ st.decays.filter (fun d => d.key == k) := by
    rw [List.mem_filter]
    exact ⟨hd, hk⟩
  unfold tasksFor at h
  rw [h] at this
  exact absurd this (List.not_mem_nil d)

theorem any_eq_true_of_tasksFor_cons (st : PianoState) (k : NoteKey)
    (d : DecayInfo) (rest : List DecayInfo) (h : tasksFor st k = d :: rest) :
    st.decays.any (fun d => d.key == k) = true := by
  rw [List.any_eq_true]
  have : d ∈ st.decays.filter (fun d => d.key == k) := by
    unfold tasksFor at h
    rw [h]
    exact List.mem_cons_self d rest
  rw [List.mem_filter] at this
  exact ⟨d, this.1, this.2⟩

theorem cancel_no_task (st : PianoState) (k : NoteKey) (b1 : Bool)
    (h : tasksFor st k = []) : cancelDecayForNote st k b1 = st := by
  unfold cancelDecayForNote
  rw [any_eq_false_of_tasksFor_nil st k h]
  simp

theorem tasksFor_cancel_self (st : PianoState) (k : NoteKey) (b1 : Bool) :
    tasksFor (cancelDecayForNote st k b1) k = (tasksFor st k).tail := by
  unfold cancelDecayForNote
  by_cases h : st.decays.any (fun d => d.key == k) = true
  · rw [if_pos h]
    exact filter_removeFirstWithKey_self st.decays k
  · rw [if_neg h]
    have h0 : tasksFor st k = [] := by
      unfold tasksFor; rw [List.filter_eq_nil_iff]
      rw [List.any_eq_true] at h
      push_neg at h
      intro d hd
      simp only [Bool.not_eq_true] at h
      simp [h d hd]
    rw [h0, List.tail_nil]

theorem tasksFor_cancel_ne (st : PianoState) (k : NoteKey) (b1 : Bool)
    (j : NoteKey) (hj : j ≠ k) :
    tasksFor (cancelDecayForNote st k b1) j = tasksFor st j := by
  unfold cancelDecayForNote
  by_cases h : st.decays.any (fun d => d.key == k) = true
  · rw [if_pos h]
    exact filter_removeFirstWithKey_ne st.decays k j hj
  · rw [if_neg h]

theorem cancel_notes_ne (st : PianoState) (k : NoteKey) (b1 : Bool)
    (j : NoteKey) (hj : j ≠ k) :
    (cancelDecayForNote st k b1).notes j = st.notes j := by
  unfold cancelDecayForNote
  by_cases h : st.decays.any (fun d => d.key == k) = true
  · rw [if_pos h]
    exact setNote_ne _ _ _ _ hj
  · rw [if_neg h]

theorem cancel_activeNotes (st : PianoState) (k : NoteKey) (b1 : Bool) :
    (cancelDecayForNote st k b1).activeNotes = st.activeNotes := by
  unfold cancelDecayForNote
  split <;> rfl

theorem cancel_enableAnim (st : PianoState) (k : NoteKey) (b1 : Bool) :
    (cancelDecayForNote st k b1).enableAnim = st.enableAnim := by
  unfold cancelDecayForNote
  split <;> rfl

theorem mkDecay_key_beq (k : NoteKey) (now : ℚ) : ((mkDecay k now).key == k) = true := by
  simp [mkDecay]

theorem tasksFor_add_self (st : PianoState) (k : NoteKey) (now : ℚ) :
    tasksFor (addNoteToDecayQueue st k now) k =
      (tasksFor st k).tail ++ [mkDecay k now] := by
  have h1 : tasksFor (cancelDecayForNote st k false) k = (tasksFor st k).tail :=
    tasksFor_cancel_self st k false
  unfold addNoteToDecayQueue
  unfold tasksFor at h1 ⊢
  show ((cancelDecayForNote st k false).decays ++ [mkDecay k now]).filter _ = _
  rw [List.filter_append, h1]
  simp [mkDecay]

theorem tasksFor_add_ne (st : PianoState) (k : NoteKey) (now : ℚ)
    (j : NoteKey) (hj : j ≠ k) :
    tasksFor (addNoteToDecayQueue st k now) j = tasksFor st j := by
  have h1 : tasksFor (cancelDecayForNote st k false) j = tasksFor st j :=
    tasksFor_cancel_ne st k false j hj
  have h2 : ((mkDecay k now).key == j) = false := by
    simp [mkDecay]
    exact fun hkj => hj hkj.symm
  unfold addNoteToDecayQueue
  unfold tasksFor at h1 ⊢
  show ((cancelDecayForNote st k false).decays ++ [mkDecay k now]).filter _ = _
  rw [List.filter_append, h1]
  simp [h2]

theorem add_notes_ne (st : PianoState) (k : NoteKey) (now : ℚ)
    (j : NoteKey) (hj : j ≠ k) :
    (addNoteToDecayQueue st k now).notes j = st.notes j := by
  unfold addNoteToDecayQueue
  exact cancel_notes_ne st k false j hj

theorem add_activeNotes (st : PianoState) (k : NoteKey) (now : ℚ) :
    (addNoteToDecayQueue st k now).activeNotes = st.activeNotes := by
  unfold addNoteToDecayQueue
  exact cancel_activeNotes st k false

theorem add_enableAnim (st : PianoState) (k : NoteKey) (now : ℚ) :
    (addNoteToDecayQueue st k now).enableAnim = st.enableAnim := by
  unfold addNoteToDecayQueue
  exact cancel_enableAnim st k false


theorem tasksFor_mk (anim : Bool) (f : NoteKey → NoteState) (a : List String)
    (dl : List DecayInfo) (k : NoteKey) :
    tasksFor { enableAnim := anim, notes := f, activeNotes := a, decays := dl } k =
      dl.filter (fun d => d.key == k) := rfl

theorem add_notes_no_task (st : PianoState) (k : NoteKey) (now : ℚ)
    (ht : tasksFor st k = []) :
    (addNoteToDecayQueue st k now).notes = st.notes := by
  unfold addNoteToDecayQueue
  rw [cancel_no_task st k false ht]

theorem cancel_found (st : PianoState) (k : NoteKey)
    (hany : st.decays.any (fun d => d.key == k) = true) :
    cancelDecayForNote st k true =
      { st with
        notes := setNote st.notes k
          { st.notes k with alpha := 0, visible := false, highlighted := false },
        decays := removeFirstWithKey st.decays k } := by
  unfold cancelDecayForNote
  rw [if_pos hany]
  rfl

theorem handleClick_notes_ne (st : PianoState) (k : NoteKey) (now : ℚ)
    (j : NoteKey) (hj : j ≠ k) :
    (handleClick st k now).notes j = st.notes j := by
  simp only [handleClick]
  split
  · split
    · rw [add_notes_ne _ _ _ _ hj]
      dsimp only
      rw [setNote_ne _ _ _ _ hj, cancel_notes_ne _ _ _ _ hj]
    · dsimp only
      rw [setNote_ne _ _ _ _ hj, cancel_notes_ne _ _ _ _ hj]
  · dsimp only
    rw [setNote_ne _ _ _ _ hj, cancel_notes_ne _ _ _ _ hj]

theorem tasksFor_handleClick_ne (st : PianoState) (k : NoteKey) (now : ℚ)
    (j : NoteKey) (hj : j ≠ k) :
    tasksFor (handleClick st k now) j = tasksFor st j := by
  simp only [handleClick]
  split
  · split
    · rw [tasksFor_add_ne _ _ _ _ hj]
      exact tasksFor_cancel_ne st k true j hj
    · exact tasksFor_cancel_ne st k true j hj
  · exact tasksFor_cancel_ne st k true j hj

theorem handleClick_from_idle (st : PianoState) (k : NoteKey) (now : ℚ)
    (hh : (st.notes k).highlighted = false) (ht : tasksFor st k = []) :
    (handleClick st k now).notes k =
      { highlighted := true, alpha := 1, visible := true, rFactor := 1 } ∧
    (handleClick st k now).activeNotes =
      (if st.activeNotes.contains (noteName k) then st.activeNotes
       else st.activeNotes ++ [noteName k]) ∧
    tasksFor (handleClick st k now) k =
      (if st.enableAnim then [mkDecay k now] else []) ∧
    (handleClick st k now).enableAnim = st.enableAnim := by
  have ht0 : st.decays.filter (fun d => d.key == k) = [] := ht
  simp only [handleClick]
  rw [cancel_no_task st k true ht, hh]
  simp only [Bool.not_false, if_true]
  cases hb : st.enableAnim with
  | false =>
      simp only [hb, Bool.false_eq_true, if_false]
      refine ⟨?_, by trivial, ?_, by trivial⟩
      · dsimp only
        rw [setNote_self]
      · rw [tasksFor_mk]
        exact ht0
  | true =>
      simp only [hb, if_true]
      refine ⟨?_, ?_, ?_, ?_⟩
      · rw [add_notes_no_task _ _ _ (by rw [tasksFor_mk]; exact ht0)]
        dsimp only
        rw [setNote_self]
      · rw [add_activeNotes]
      · rw [tasksFor_add_self, tasksFor_mk, ht0]
        rfl
      · rw [add_enableAnim]

theorem handleClick_from_sustained (st : PianoState) (k : NoteKey) (now : ℚ)
    (hh : (st.notes k).highlighted = true) (ht : tasksFor st k = []) :
    (handleClick st k now).notes k =
      { st.notes k with highlighted := false, alpha := 0, visible := false } ∧
    (handleClick st k now).activeNotes = st.activeNotes.erase (noteName k) ∧
    tasksFor (handleClick st k now) k = [] := by
  have ht0 : st.decays.filter (fun d => d.key == k) = [] := ht
  simp only [handleClick]
  rw [cancel_no_task st k true ht, hh]
  simp only [Bool.not_true, Bool.false_eq_true, if_false]
  refine ⟨?_, by trivial, ?_⟩
  · dsimp only
    rw [setNote_self]
  · rw [tasksFor_mk]
    exact ht0

theorem handleClick_from_decaying (st : PianoState) (k : NoteKey) (now : ℚ)
    (d : DecayInfo) (htask : tasksFor st k = [d]) :
    (handleClick st k now).notes k =
      { highlighted := true, alpha := 1, visible := true, rFactor := 1 } ∧
    tasksFor (handleClick st k now) k =
      (if st.enableAnim then [mkDecay k now] else []) ∧
    (handleClick st k now).activeNotes =
      (if st.activeNotes.contains (noteName k) then st.activeNotes
       else st.activeNotes ++ [noteName k]) := by
  have htask0 : st.decays.filter (fun x => x.key == k) = [d] := htask
  have hany : st.decays.any (fun x => x.key == k) = true :=
    any_eq_true_of_tasksFor_cons st k d [] htask
  have hrem : (removeFirstWithKey st.decays k).filter (fun x => x.key == k) = [] := by
    rw [filter_removeFirstWithKey_self, htask0]
    rfl
  simp only [handleClick]
  rw [cancel_found st k hany]
  dsimp only
  rw [setNote_self]
  simp only [Bool.not_false, if_true]
  cases hb : st.enableAnim with
  | false =>
      simp only [hb, Bool.false_eq_true, if_false]
      refine ⟨?_, ?_, by trivial⟩
      · dsimp only
        rw [setNote_self]
      · rw [tasksFor_mk]
        exact hrem
  | true =>
      simp only [hb, if_true]
      refine ⟨?_, ?_, ?_⟩
      · rw [add_notes_no_task _ _ _ (by rw [tasksFor_mk]; exact hrem)]
        dsimp only
        rw [setNote_self]
      · rw [tasksFor_add_self, tasksFor_mk, hrem]
        rfl
      · rw [add_activeNotes]

theorem tickStep_fst_activeNotes (now : ℚ) (acc : PianoState × List DecayInfo)
    (d : DecayInfo) : (tickStep now acc d).1.activeNotes = acc.1.activeNotes := by
  simp only [tickStep]
  split <;> rfl

theorem tickStep_fst_decays (now : ℚ) (acc : PianoState × List DecayInfo)
    (d : DecayInfo) : (tickStep now acc d).1.decays = acc.1.decays := by
  simp only [tickStep]
  split <;> rfl

theorem tickStep_fst_enableAnim (now : ℚ) (acc : PianoState × List DecayInfo)
    (d : DecayInfo) : (tickStep now acc d).1.enableAnim = acc.1.enableAnim := by
  simp only [tickStep]
  split <;> rfl

theorem foldl_tickStep_activeNotes (now : ℚ) (l : List DecayInfo)
    (acc : PianoState × List DecayInfo) :
    (l.foldl (tickStep now) acc).1.activeNotes = acc.1.activeNotes := by
  induction l generalizing acc with
  | nil => rfl
  | cons d rest ih =>
      rw [List.foldl_cons, ih, tickStep_fst_activeNotes]

theorem foldl_tickStep_decays (now : ℚ) (l : List DecayInfo)
    (acc : PianoState × List DecayInfo) :
    (l.foldl (tickStep now) acc).1.decays = acc.1.decays := by
  induction l generalizing acc with
  | nil => rfl
  | cons d rest ih =>
      rw [List.foldl_cons, ih, tickStep_fst_decays]

theorem foldl_tickStep_enableAnim (now : ℚ) (l : List DecayInfo)
    (acc : PianoState × List DecayInfo) :
    (l.foldl (tickStep now) acc).1.enableAnim = acc.1.enableAnim := by
  induction l generalizing acc with
  | nil => rfl
  | cons d rest ih =>
      rw [List.foldl_cons, ih, tickStep_fst_enableAnim]

theorem tickUpdate_activeNotes (st : PianoState) (now : ℚ) :
    (tickUpdate st now).activeNotes = st.activeNotes := by
  unfold tickUpdate
  exact foldl_tickStep_activeNotes now st.decays (st, [])

theorem tickUpdate_enableAnim (st : PianoState) (now : ℚ) :
    (tickUpdate st now).enableAnim = st.enableAnim := by
  unfold tickUpdate
  exact foldl_tickStep_enableAnim now st.decays (st, [])

theorem tickUpdate_decays_sublist (st : PianoState) (now : ℚ) :
    (tickUpdate st now).decays.Sublist st.decays := by
  unfold tickUpdate
  show ((st.decays.foldl (tickStep now) (st, [])).2.foldl _
      (st.decays.foldl (tickStep now) (st, [])).1.decays).Sublist st.decays
  rw [foldl_tickStep_decays]
  exact foldl_eraseFirst_sublist _ st.decays

theorem tickUpdate_single_live (st : PianoState) (k : NoteKey) (s dur f now : ℚ)
    (hdec : st.decays = [{ key := k, startTime := s, duration := dur, endFactor := f }])
    (hlt : min 1 ((now - s) / dur) < 1) :
    (tickUpdate st now).notes k =
      { st.notes k with
          rFactor := 1 - (min 1 ((now - s) / dur)) * (1 - f),
          alpha := 1 - min 1 ((now - s) / dur),
          visible := true } ∧
    (tickUpdate st now).decays = st.decays := by
  unfold tickUpdate
  rw [hdec]
  rw [List.foldl_cons, List.foldl_nil]
  simp only [tickStep]
  rw [if_pos hlt]
  constructor
  · dsimp only
    rw [setNote_self]
  · dsimp only
    rw [List.foldl_nil, hdec]

theorem tickUpdate_single_done (st : PianoState) (k : NoteKey) (s dur f now : ℚ)
    (hdec : st.decays = [{ key := k, startTime := s, duration := dur, endFactor := f }])
    (hge : ¬ min 1 ((now - s) / dur) < 1) :
    (tickUpdate st now).notes k =
      { st.notes k with alpha := 0, visible := false, highlighted := false } ∧
    (tickUpdate st now).decays = [] := by
  unfold tickUpdate
  rw [hdec]
  rw [List.foldl_cons, List.foldl_nil]
  simp only [tickStep]
  rw [if_neg hge]
  constructor
  · dsimp only
    rw [setNote_self]
  · dsimp only
    rw [List.nil_append, List.foldl_cons, List.foldl_nil, hdec]
    simp [eraseFirst]

theorem tickStep_notes_ne (now : ℚ) (acc : PianoState × List DecayInfo)
    (d : DecayInfo) (j : NoteKey) (hj : j ≠ d.key) :
    (tickStep now acc d).1.notes j = acc.1.notes j := by
  simp only [tickStep]
  split
  · dsimp only
    rw [setNote_ne _ _ _ _ hj]
  · dsimp only
    rw [setNote_ne _ _ _ _ hj]

theorem foldl_tickStep_notes_none (now : ℚ) (l : List DecayInfo)
    (acc : PianoState × List DecayInfo) (k : NoteKey)
    (h : l.filter (fun e => e.key == k) = []) :
    (l.foldl (tickStep now) acc).1.notes k = acc.1.notes k := by
  induction l generalizing acc with
  | nil => rfl
  | cons e rest ih =>
      rw [List.filter_cons] at h
      by_cases he : (e.key == k) = true
      · rw [if_pos he] at h
        exact absurd h (List.cons_ne_nil e _)
      · rw [if_neg he] at h
        rw [List.foldl_cons, ih _ h]
        refine tickStep_notes_ne now acc e k ?_
        intro hk
        apply he
        rw [hk]
        simp

/-- Effect of one master tick on the note of a task `d` that is the only
live task for its key; the surrounding task list is arbitrary. -/
theorem foldl_tickStep_notes_single (now : ℚ) (l : List DecayInfo)
    (acc : PianoState × List DecayInfo) (d : DecayInfo)
    (h : l.filter (fun e => e.key == d.key) = [d]) :
    (l.foldl (tickStep now) acc).1.notes d.key =
      (if min 1 ((now - d.startTime) / d.duration) < 1 then
        { acc.1.notes d.key with
            rFactor := 1 - (min 1 ((now - d.startTime) / d.duration)) * (1 - d.endFactor),
            alpha := 1 - min 1 ((now - d.startTime) / d.duration),
            visible := true }
      else
        { acc.1.notes d.key with alpha := 0, visible := false, highlighted := false }) := by
  induction l generalizing acc with
  | nil => exact absurd h (by simp)
  | cons e rest ih =>
      rw [List.filter_cons] at h
      by_cases he : (e.key == d.key) = true
      · rw [if_pos he] at h
        injection h with he1 hrest
        subst he1
        rw [List.foldl_cons, foldl_tickStep_notes_none now rest _ _ hrest]
        simp only [tickStep]
        split <;> (dsimp only; rw [setNote_self])
      · rw [if_neg he] at h
        rw [List.foldl_cons, ih _ h]
        rw [tickStep_notes_ne now acc e d.key ?_]
        intro hk
        apply he
        rw [hk]
        simp

/-- The completed tasks collected by one master tick are exactly the tasks
whose progress has reached 1, in list order. -/
theorem foldl_tickStep_snd (now : ℚ) (l : List DecayInfo)
    (acc : PianoState × List DecayInfo) :
    (l.foldl (tickStep now) acc).2 =
      acc.2 ++ l.filter
        (fun e => !decide (min 1 ((now - e.startTime) / e.duration) < 1)) := by
  induction l generalizing acc with
  | nil => simp
  | cons e rest ih =>
      rw [List.foldl_cons, ih, List.filter_cons]
      by_cases hp : min 1 ((now - e.startTime) / e.duration) < 1
      · have h2 : (tickStep now acc e).2 = acc.2 := by
          simp only [tickStep]
          rw [if_pos hp]
        have hb : (!decide (min 1 ((now - e.startTime) / e.duration) < 1)) = false := by
          rw [decide_eq_true hp]
          rfl
        rw [h2, hb]
        simp
      · have h2 : (tickStep now acc e).2 = acc.2 ++ [e] := by
          simp only [tickStep]
          rw [if_neg hp]
        have hb : (!decide (min 1 ((now - e.startTime) / e.duration) < 1)) = true := by
          rw [decide_eq_false hp]
          rfl
        rw [h2, hb]
        simp

theorem filter_eraseFirst_of_neg (l : List DecayInfo) (x : DecayInfo) (k : NoteKey)
    (hx : (x.key == k) = false) :
    (eraseFirst l x).filter (fun e => e.key == k) =
      l.filter (fun e => e.key == k) := by
  induction l with
  | nil => rfl
  | cons y rest ih =>
      by_cases hy : y = x
      · subst hy
        simp [eraseFirst, List.filter_cons, hx]
      · by_cases hk : (y.key == k) = true
        · simp [eraseFirst, hy, List.filter_cons, hk, ih]
        · simp [eraseFirst, hy, List.filter_cons, hk, ih]

theorem filter_eraseFirst_self_single (l : List DecayInfo) (k : NoteKey)
    (d : DecayInfo) (h : l.filter (fun e => e.key == k) = [d]) :
    (eraseFirst l d).filter (fun e => e.key == k) = [] := by
  induction l with
  | nil => exact absurd h (by simp)
  | cons y rest ih =>
      rw [List.filter_cons] at h
      by_cases hy : y = d
      · subst hy
        by_cases hk : (y.key == k) = true
        · rw [if_pos hk] at h
          injection h with h1 hrest
          simp [eraseFirst, hrest]
        · rw [if_neg hk] at h
          have hd : (y.key == k) = true := by
            have hmem : y ∈ rest.filter (fun e => e.key == k) := by
              rw [h]
              exact List.mem_cons_self y []
            exact (List.mem_filter.mp hmem).2
          exact absurd hd hk
      · by_cases hk : (y.key == k) = true
        · rw [if_pos hk] at h
          injection h with h1 hrest
          exact absurd h1 hy
        · rw [if_neg hk] at h
          simp [eraseFirst, hy, List.filter_cons, hk, ih h]

theorem filter_foldl_eraseFirst_none (rm l : List DecayInfo) (k : NoteKey)
    (h : ∀ x ∈ rm, (x.key == k) = false) :
    ((rm.foldl (fun a x => eraseFirst a x) l).filter (fun e => e.key == k)) =
      l.filter (fun e => e.key == k) := by
  induction rm generalizing l with
  | nil => rfl
  | cons x rest ih =>
      rw [List.foldl_cons, ih _ (fun y hy => h y (List.mem_cons_of_mem x hy)),
        filter_eraseFirst_of_neg l x k (h x (List.mem_cons_self x rest))]

theorem filter_foldl_eraseFirst_single (rm l : List DecayInfo) (k : NoteKey)
    (d : DecayInfo) (hl : l.filter (fun e => e.key == k) = [d])
    (hrm : rm.filter (fun e => e.key == k) = [d]) :
    ((rm.foldl (fun a x => eraseFirst a x) l).filter (fun e => e.key == k)) = [] := by
  induction rm generalizing l with
  | nil => exact absurd hrm (by simp)
  | cons x rest ih =>
      rw [List.filter_cons] at hrm
      by_cases hk : (x.key == k) = true
      · rw [if_pos hk] at hrm
        injection hrm with h1 hrest
        subst h1
        rw [List.foldl_cons]
        rw [filter_foldl_eraseFirst_none rest _ k ?_]
        · exact filter_eraseFirst_self_single l k x hl
        · intro y hy
          have hy0 := List.filter_eq_nil_iff.mp hrest y hy
          simp only [Bool.not_eq_true] at hy0
          exact hy0
      · rw [if_neg hk] at hrm
        rw [List.foldl_cons]
        refine ih (eraseFirst l x) ?_ hrm
        rw [filter_eraseFirst_of_neg l x k ?_]
        · exact hl
        · simp only [Bool.not_eq_true] at hk
          exact hk

/-- Effect of one master tick on the note of a task that is the only live
task for its key, with arbitrary other tasks in the list. -/
theorem tickUpdate_notes_of_tasksFor (st : PianoState) (d : DecayInfo) (now : ℚ)
    (htask : tasksFor st d.key = [d]) :
    (tickUpdate st now).notes d.key =
      (if min 1 ((now - d.startTime) / d.duration) < 1 then
        { st.notes d.key with
            rFactor := 1 - (min 1 ((now - d.startTime) / d.duration)) * (1 - d.endFactor),
            alpha := 1 - min 1 ((now - d.startTime) / d.duration),
            visible := true }
      else
        { st.notes d.key with alpha := 0, visible := false, highlighted := false }) := by
  unfold tickUpdate
  exact foldl_tickStep_notes_single now st.decays (st, []) d htask

/-- Effect of one master tick on the task list at the key of a task that is
the only live task for its key: the task survives a live tick and is removed
by a completing tick, with arbitrary other tasks in the list. -/
theorem tickUpdate_tasksFor_of_tasksFor (st : PianoState) (d : DecayInfo) (now : ℚ)
    (htask : tasksFor st d.key = [d]) :
    tasksFor (tickUpdate st now) d.key =
      (if min 1 ((now - d.startTime) / d.duration) < 1 then [d] else []) := by
  have hq : (st.decays.filter
        (fun e => !decide (min 1 ((now - e.startTime) / e.duration) < 1))).filter
        (fun e => e.key == d.key) =
      [d].filter (fun e => !decide (min 1 ((now - e.startTime) / e.duration) < 1)) := by
    rw [List.filter_filter, ← htask]
    show _ = List.filter _ (List.filter _ st.decays)
    rw [List.filter_filter]
    exact List.filter_congr (fun a _ => Bool.and_comm _ _)
  unfold tickUpdate tasksFor
  show ((st.decays.foldl (tickStep now) (st, [])).2.foldl _
      (st.decays.foldl (tickStep now) (st, [])).1.decays).filter _ = _
  rw [foldl_tickStep_decays, foldl_tickStep_snd, List.nil_append]
  by_cases hp : min 1 ((now - d.startTime) / d.duration) < 1
  · rw [if_pos hp]
    have hb : (!decide (min 1 ((now - d.startTime) / d.duration) < 1)) = false := by
      rw [decide_eq_true hp]
      rfl
    have hnone : ([d].filter
        (fun e => !decide (min 1 ((now - e.startTime) / e.duration) < 1))) = [] := by
      rw [List.filter_cons, hb]
      simp
    rw [hnone] at hq
    rw [filter_foldl_eraseFirst_none _ st.decays d.key ?_]
    · exact htask
    · intro y hy
      have hy0 := List.filter_eq_nil_iff.mp hq y hy
      simp only [Bool.not_eq_true] at hy0
      exact hy0
  · rw [if_neg hp]
    have hb : (!decide (min 1 ((now - d.startTime) / d.duration) < 1)) = true := by
      rw [decide_eq_false hp]
      rfl
    have hone : ([d].filter
        (fun e => !decide (min 1 ((now - e.startTime) / e.duration) < 1))) = [d] := by
      rw [List.filter_cons, hb]
      simp
    rw [hone] at hq
    exact filter_foldl_eraseFirst_single _ st.decays d.key d htask hq

theorem countTasks_cancel_le (st : PianoState) (k : NoteKey) (b1 : Bool)
    (j : NoteKey) : countTasks (cancelDecayForNote st k b1) j ≤ countTasks st j := by
  by_cases hj : j = k
  · subst hj
    unfold countTasks
    rw [tasksFor_cancel_self]
    exact (List.length_tail _).le.trans (Nat.sub_le _ _)
  · unfold countTasks
    rw [tasksFor_cancel_ne st k b1 j hj]

theorem invTasks_cancel (st : PianoState) (k : NoteKey) (b1 : Bool)
    (h : InvTasks st) : InvTasks (cancelDecayForNote st k b1) := by
  intro j
  exact (countTasks_cancel_le st k b1 j).trans (h j)

theorem invTasks_add (st : PianoState) (k : NoteKey) (now : ℚ)
    (h : InvTasks st) : InvTasks (addNoteToDecayQueue st k now) := by
  intro j
  by_cases hj : j = k
  · subst hj
    unfold countTasks
    rw [tasksFor_add_self]
    rw [List.length_append, List.length_singleton]
    have h1 : (tasksFor st j).tail.length = (tasksFor st j).length - 1 :=
      List.length_tail _
    have h2 : (tasksFor st j).length ≤ 1 := h j
    omega
  · unfold countTasks
    rw [tasksFor_add_ne st k now j hj]
    exact h j

theorem invTasks_handleClick (st : PianoState) (k : NoteKey) (now : ℚ)
    (h : InvTasks st) : InvTasks (handleClick st k now) := by
  simp only [handleClick]
  split
  · split
    · apply invTasks_add
      intro j
      show countTasks (cancelDecayForNote st k true) j ≤ 1
      exact (countTasks_cancel_le st k true j).trans (h j)
    · intro j
      show countTasks (cancelDecayForNote st k true) j ≤ 1
      exact (countTasks_cancel_le st k true j).trans (h j)
  · intro j
    show countTasks (cancelDecayForNote st k true) j ≤ 1
    exact (countTasks_cancel_le st k true j).trans (h j)

theorem invTasks_onClick (st : PianoState) (hit : NoteKey → Bool) (now : ℚ)
    (h : InvTasks st) : InvTasks (onClick st hit now) := by
  unfold onClick
  cases allKeys.find? hit with
  | none => exact h
  | some k => exact invTasks_handleClick st k now h

theorem invTasks_batchStep (now : ℚ) (s : PianoState) (k : NoteKey)
    (h : InvTasks s) : InvTasks (batchStep now s k) := by
  unfold batchStep
  apply invTasks_add
  intro j
  exact h j

theorem invTasks_batchFold (now : ℚ) (keys : List NoteKey) (s : PianoState)
    (h : InvTasks s) : InvTasks (keys.foldl (batchStep now) s) := by
  induction keys generalizing s with
  | nil => exact h
  | cons k rest ih =>
      rw [List.foldl_cons]
      exact ih _ (invTasks_batchStep now s k h)

theorem invTasks_triggerBatch (st : PianoState) (forceAnim : Bool) (now : ℚ)
    (h : InvTasks st) : InvTasks (triggerBatchDecay st forceAnim now) := by
  simp only [triggerBatchDecay]
  split
  · exact h
  · apply invTasks_batchFold
    intro j
    exact h j

theorem invTasks_tick (st : PianoState) (now : ℚ)
    (h : InvTasks st) : InvTasks (tickUpdate st now) := by
  intro j
  unfold countTasks tasksFor
  have hs : ((tickUpdate st now).decays.filter (fun d => d.key == j)).Sublist
      (st.decays.filter (fun d => d.key == j)) :=
    (tickUpdate_decays_sublist st now).filter _
  exact hs.length_le.trans (h j)

theorem invTasks_recreate (st : PianoState) (h : InvTasks st) :
    InvTasks (recreateBackground st) := by
  intro j
  exact h j

theorem invTasks_toggle (st : PianoState) (now : ℚ) (h : InvTasks st) :
    InvTasks (onKeyToggle st now) := by
  simp only [onKeyToggle]
  split
  · apply invTasks_triggerBatch
    intro j
    exact invTasks_recreate st h j
  · intro j
    exact invTasks_recreate st h j

theorem invTasks_step (st : PianoState) (e : Event) (h : InvTasks st) :
    InvTasks (step st e) := by
  cases e with
  | click hit now => exact invTasks_onClick st hit now h
  | keySpace now =>
      simp only [step]
      split
      · exact invTasks_triggerBatch st false now h
      · exact h
  | keyToggle now => exact invTasks_toggle st now h
  | tick now => exact invTasks_tick st now h

theorem invTasks_run (st : PianoState) (evs : List Event) (h : InvTasks st) :
    InvTasks (run st evs) := by
  induction evs generalizing st with
  | nil => exact h
  | cons e rest ih =>
      show InvTasks (run (step st e) rest)
      exact ih _ (invTasks_step st e h)

theorem invTasks_init (anim : Bool) : InvTasks (initState anim) := by
  intro k
  show ([] : List DecayInfo).length ≤ 1
  simp

/-- Claim C1 (code defect).  With auto-decay disabled, clicking C3 and E3
leaves both Sustained with ActiveSet `["C3", "E3"]`; the claim says the
spacebar "release all" command then clears the ActiveSet and schedules one
DecayTask per sustained key, but `_trigger_batch_decay`'s guard
`if not self.enable_animation and not force_animation: return` makes the
spacebar press a no-op: the state is unchanged, no task is scheduled and the
ActiveSet still holds both names. -/
theorem c1_spacebar_release_all_is_noop :
    stC3E3.enableAnim = false ∧
    stC3E3.activeNotes = ["C3", "E3"] ∧
    (stC3E3.notes (NoteKey.mk 2 0)).highlighted = true ∧
    (stC3E3.notes (NoteKey.mk 2 4)).highlighted = true ∧
    step stC3E3 (Event.keySpace 1) = stC3E3 ∧
    (step stC3E3 (Event.keySpace 1)).decays = [] ∧
    (step stC3E3 (Event.keySpace 1)).activeNotes = ["C3", "E3"] :=
  ⟨rfl, rfl, rfl, rfl, rfl, rfl, rfl⟩

/-- Claim C2 (code defect).  With auto-decay enabled, clicking C3 at time 0
and ticking at time 1 (past the 0.5s duration) completes the decay: the key
is blanked (`highlighted = false`, `alpha = 0`) and its task is removed, but
`_update_decay_animations` never removes the name from `active_notes_list`,
so the ActiveSet still holds "C3" and the status summary still lists it,
contrary to the claim. -/
theorem c2_decay_completion_keeps_name_in_active_set :
    stClickedC3.activeNotes = ["C3"] ∧
    stClickedC3.decays = [mkDecay (NoteKey.mk 2 0) 0] ∧
    ((tickUpdate stClickedC3 1).notes (NoteKey.mk 2 0)).highlighted = false ∧
    ((tickUpdate stClickedC3 1).notes (NoteKey.mk 2 0)).alpha = 0 ∧
    (tickUpdate stClickedC3 1).decays = [] ∧
    (tickUpdate stClickedC3 1).activeNotes = ["C3"] ∧
    statusText (tickUpdate stClickedC3 1) = "Active Notes: C3" := by
  have hdec : stClickedC3.decays = [mkDecay (NoteKey.mk 2 0) 0] := rfl
  have hact : stClickedC3.activeNotes = ["C3"] := rfl
  have hge : ¬ min 1 (((1:ℚ) - 0) / ((1:ℚ)/2)) < 1 := by
    norm_num [min_def]
  have htick := tickUpdate_single_done stClickedC3 (NoteKey.mk 2 0) 0 ((1:ℚ)/2)
    ((1:ℚ)/2) 1 hdec hge
  have hnotes : (tickUpdate stClickedC3 1).activeNotes = ["C3"] := by
    rw [tickUpdate_activeNotes]
    exact hact
  refine ⟨hact, hdec, ?_, ?_, htick.2, hnotes, ?_⟩
  · rw [htick.1]
  · rw [htick.1]
  · unfold statusText
    rw [hnotes]
    rfl

/-- Claim C3 is false as stated: with auto-decay enabled, double-clicking C3
from Idle does not return it to Idle with alpha 0 — the cancel helper resets
the `highlighted` flag, so the second click re-lights the key (alpha 1) and
schedules a fresh DecayTask. -/
theorem c3_counterexample_double_click_auto_decay :
    (stDoubleC3.notes (NoteKey.mk 2 0)).highlighted = true ∧
    (stDoubleC3.notes (NoteKey.mk 2 0)).alpha = 1 ∧
    stDoubleC3.decays = [mkDecay (NoteKey.mk 2 0) 0] :=
  ⟨rfl, rfl, rfl⟩

/-- Claim C3 amended.  Clicking an Idle key twice in succession (no
intervening tick) returns it to Idle with alpha 0 when auto-decay is
disabled; when auto-decay is enabled, the second click instead re-strikes:
the key ends highlighted with alpha 1 and a fresh DecayTask started at the
second click time. -/
theorem c3_double_click_toggle_or_restrike
    (st : PianoState) (k : NoteKey) (t1 t2 : ℚ)
    (hh : (st.notes k).highlighted = false) (ht : tasksFor st k = []) :
    (st.enableAnim = false →
      ((handleClick (handleClick st k t1) k t2).notes k).highlighted = false ∧
      ((handleClick (handleClick st k t1) k t2).notes k).alpha = 0) ∧
    (st.enableAnim = true →
      ((handleClick (handleClick st k t1) k t2).notes k).highlighted = true ∧
      ((handleClick (handleClick st k t1) k t2).notes k).alpha = 1 ∧
      tasksFor (handleClick (handleClick st k t1) k t2) k = [mkDecay k t2]) := by
  obtain ⟨h1, h2, h3, h4⟩ := handleClick_from_idle st k t1 hh ht
  constructor
  · intro ha
    have ht1 : tasksFor (handleClick st k t1) k = [] := by
      rw [h3, ha]
      rfl
    have hh1 : ((handleClick st k t1).notes k).highlighted = true := by
      rw [h1]
    obtain ⟨g1, g2, g3⟩ := handleClick_from_sustained (handleClick st k t1) k t2 hh1 ht1
    exact ⟨by rw [g1], by rw [g1]⟩
  · intro ha
    have ht1 : tasksFor (handleClick st k t1) k = [mkDecay k t1] := by
      rw [h3, ha]
      rfl
    obtain ⟨g1, g2, g3⟩ :=
      handleClick_from_decaying (handleClick st k t1) k t2 (mkDecay k t1) ht1
    refine ⟨by rw [g1], by rw [g1], ?_⟩
    rw [g2, h4, ha]
    rfl

/-- Witness for the amended C3 at a concrete input: auto-decay enabled,
double-clicking C3 from the initial state leaves it highlighted. -/
theorem c3_double_click_toggle_or_restrike_witness :
    ((handleClick (handleClick (initState true) (NoteKey.mk 2 0) 0)
        (NoteKey.mk 2 0) 0).notes (NoteKey.mk 2 0)).highlighted = true :=
  ((c3_double_click_toggle_or_restrike (initState true) (NoteKey.mk 2 0) 0 0
      rfl rfl).2 rfl).1

/-- Claim C5 (code defect).  The status-display sort key
`(x[-1], semitone_names.index(x[:-1].rstrip(hash)))` strips the sharp sign
before the index lookup, so "C3" and "C#3" get identical keys and the stable
sort keeps their click order: clicking C#3 then C3 displays
"Active Notes: C#3, C3", contradicting the claim that C3 always precedes
C#3 regardless of click order. -/
theorem c5_status_sort_ties_sharp_with_natural :
    pyKey ("C3") = pyKey ("C#3") ∧
    pySorted ["C#3", "C3"] = ["C#3", "C3"] ∧
    stCs3C3.activeNotes = ["C#3", "C3"] ∧
    statusText stCs3C3 = "Active Notes: C#3, C3" :=
  ⟨rfl, rfl, rfl, rfl⟩

/-- Claim C6.  For every live DecayTask `d` — the only task for its key, with
arbitrary further tasks for other keys in the list — sampled at wall-clock
`now ≥ startTime` with positive duration: the scheduler's progress
`min 1 ((now - startTime) / duration)` equals the specified clamp to
`[0, 1]`; before `startTime + duration` the task's note gets
`alpha = 1 - progress` and
`radialScaleFactor = 1 - progress·(1 - endRadialFactor)` and the task stays
live; from `startTime + duration` on, any single tick completes the fade
(the task is removed and the note blanked) regardless of how many ticks
preceded it; and in the concrete scenario (duration 0.5, end factor 0.5,
sampled at t = 0.25) the radial scale factor is 0.75. -/
theorem c6_scheduler_wall_clock_formulas
    (st : PianoState) (d : DecayInfo) (now : ℚ)
    (htask : tasksFor st d.key = [d])
    (hdur : 0 < d.duration) (h0 : d.startTime ≤ now) :
    min 1 ((now - d.startTime) / d.duration) =
      max 0 (min 1 ((now - d.startTime) / d.duration)) ∧
    (now < d.startTime + d.duration →
      ((tickUpdate st now).notes d.key).alpha = 1 - (now - d.startTime) / d.duration ∧
      ((tickUpdate st now).notes d.key).rFactor =
        1 - ((now - d.startTime) / d.duration) * (1 - d.endFactor) ∧
      tasksFor (tickUpdate st now) d.key = [d]) ∧
    (d.startTime + d.duration ≤ now →
      tasksFor (tickUpdate st now) d.key = [] ∧
      ((tickUpdate st now).notes d.key).alpha = 0 ∧
      ((tickUpdate st now).notes d.key).highlighted = false) ∧
    (d.startTime = 0 → d.duration = 1/2 → d.endFactor = 1/2 → now = 1/4 →
      ((tickUpdate st now).notes d.key).rFactor = 3/4) := by
  have hx0 : 0 ≤ (now - d.startTime) / d.duration := div_nonneg (by linarith) hdur.le
  have hnotes := tickUpdate_notes_of_tasksFor st d now htask
  have htasks := tickUpdate_tasksFor_of_tasksFor st d now htask
  have hlive : now < d.startTime + d.duration →
      ((tickUpdate st now).notes d.key).alpha = 1 - (now - d.startTime) / d.duration ∧
      ((tickUpdate st now).notes d.key).rFactor =
        1 - ((now - d.startTime) / d.duration) * (1 - d.endFactor) ∧
      tasksFor (tickUpdate st now) d.key = [d] := by
    intro hlt
    have hx1 : (now - d.startTime) / d.duration < 1 := by
      rw [div_lt_one hdur]
      linarith
    have hp : min 1 ((now - d.startTime) / d.duration) < 1 :=
      lt_of_le_of_lt (min_le_right _ _) hx1
    have hmin : min 1 ((now - d.startTime) / d.duration) = (now - d.startTime) / d.duration :=
      min_eq_right hx1.le
    rw [if_pos hp] at hnotes htasks
    refine ⟨?_, ?_, htasks⟩
    · rw [hnotes]
      dsimp only
      rw [hmin]
    · rw [hnotes]
      dsimp only
      rw [hmin]
  refine ⟨?_, hlive, ?_, ?_⟩
  · exact (max_eq_right (le_min zero_le_one hx0)).symm
  · intro hge0
    have hx1 : (1:ℚ) ≤ (now - d.startTime) / d.duration := by
      rw [le_div_iff₀ hdur]
      linarith
    have hp : ¬ min 1 ((now - d.startTime) / d.duration) < 1 := by
      rw [min_eq_left hx1]
      exact lt_irrefl 1
    rw [if_neg hp] at hnotes htasks
    refine ⟨htasks, ?_, ?_⟩
    · rw [hnotes]
    · rw [hnotes]
  · intro hs hdur2 hf hnow
    have hlt : now < d.startTime + d.duration := by
      rw [hs, hdur2, hnow]
      norm_num
    have h := (hlive hlt).2.1
    rw [h, hs, hdur2, hf, hnow]
    norm_num

/-- Witness for C6: the G3 scenario with a second concurrent task for
another key also in flight — G3's task started at 0 with duration 1/2 and
end factor 1/2, sampled at 1/4, yields radial scale factor 3/4. -/
theorem c6_scheduler_wall_clock_formulas_witness :
    ((tickUpdate { initState true with
        decays := [mkDecay (NoteKey.mk 0 0) 0, mkDecay (NoteKey.mk 2 7) 0] }
        ((1:ℚ)/4)).notes (NoteKey.mk 2 7)).rFactor = 3/4 :=
  (c6_scheduler_wall_clock_formulas
      { initState true with
        decays := [mkDecay (NoteKey.mk 0 0) 0, mkDecay (NoteKey.mk 2 7) 0] }
      (mkDecay (NoteKey.mk 2 7) 0) ((1:ℚ)/4) rfl (by simp [mkDecay])
      (by simp [mkDecay])).2.2.2 rfl rfl rfl rfl

/-- Claim C7.  Clicking a key that currently has a live DecayTask (state
Decaying) while auto-decay is enabled cancels the in-flight task, resets the
key to full brightness (`alpha = 1`, `radialScaleFactor = 1`, highlighted),
and schedules a fresh DecayTask whose start time is the click time — the
restarted fade begins from full brightness. -/
theorem c7_restrike_restarts_from_full_brightness
    (st : PianoState) (k : NoteKey) (now : ℚ) (d : DecayInfo)
    (hanim : st.enableAnim = true) (htask : tasksFor st k = [d]) :
    (handleClick st k now).notes k =
      { highlighted := true, alpha := 1, visible := true, rFactor := 1 } ∧
    tasksFor (handleClick st k now) k = [mkDecay k now] := by
  obtain ⟨h1, h2, h3⟩ := handleClick_from_decaying st k now d htask
  refine ⟨h1, ?_⟩
  rw [h2, hanim]
  rfl

/-- Witness for C7: A3 decaying since time 0, re-clicked at time 1. -/
theorem c7_restrike_restarts_from_full_brightness_witness :
    (handleClick { initState true with decays := [mkDecay (NoteKey.mk 2 9) 0] }
        (NoteKey.mk 2 9) 1).notes (NoteKey.mk 2 9) =
      { highlighted := true, alpha := 1, visible := true, rFactor := 1 } ∧
    tasksFor (handleClick { initState true with decays := [mkDecay (NoteKey.mk 2 9) 0] }
        (NoteKey.mk 2 9) 1) (NoteKey.mk 2 9) = [mkDecay (NoteKey.mk 2 9) 1] :=
  c7_restrike_restarts_from_full_brightness
    { initState true with decays := [mkDecay (NoteKey.mk 2 9) 0] }
    (NoteKey.mk 2 9) 1 (mkDecay (NoteKey.mk 2 9) 0) rfl rfl

/-- Claim C8.  After every sequence of input events from a fresh state, each
key has at most one live DecayTask; and scheduling a new task for a key whose
task count respects the invariant first cancels and removes any existing
task, leaving exactly the fresh task for that key. -/
theorem c8_at_most_one_task_per_key :
    (∀ (anim : Bool) (evs : List Event) (k : NoteKey),
        countTasks (run (initState anim) evs) k ≤ 1) ∧
    (∀ (st : PianoState) (k : NoteKey) (now : ℚ), countTasks st k ≤ 1 →
        tasksFor (addNoteToDecayQueue st k now) k = [mkDecay k now]) := by
  constructor
  · intro anim evs k
    exact invTasks_run (initState anim) evs (invTasks_init anim) k
  · intro st k now h
    rw [tasksFor_add_self]
    have htail : (tasksFor st k).tail = [] := by
      cases hl : tasksFor st k with
      | nil => rfl
      | cons a l =>
          unfold countTasks at h
          rw [hl] at h
          simp only [List.length_cons] at h
          have hlen : l.length = 0 := by omega
          show l = []
          exact List.eq_nil_of_length_eq_zero hlen
    rw [htail]
    rfl

/-- Witness for C8: scheduling a task for key (0,0) in the fresh state leaves
exactly one task for it. -/
theorem c8_at_most_one_task_per_key_witness :
    tasksFor (addNoteToDecayQueue (initState true) (NoteKey.mk 0 0) 0)
      (NoteKey.mk 0 0) = [mkDecay (NoteKey.mk 0 0) 0] :=
  c8_at_most_one_task_per_key.2 (initState true) (NoteKey.mk 0 0) 0 (by decide)

/-- Claim C10.  A single click changes the state of at most one key: when the
hit search resolves the pointer to the first containing key `k`, every other
key's state (highlighted flag, alpha, visibility, radial data) is unchanged,
and a click resolving to no key changes nothing at all. -/
theorem c10_click_changes_at_most_one_key
    (st : PianoState) (hit : NoteKey → Bool) (now : ℚ) :
    (∀ k, allKeys.find? hit = some k →
      ∀ j, j ≠ k → (onClick st hit now).notes j = st.notes j) ∧
    (allKeys.find? hit = none → onClick st hit now = st) := by
  constructor
  · intro k hk j hj
    unfold onClick
    rw [hk]
    exact handleClick_notes_ne st k now j hj
  · intro hk
    unfold onClick
    rw [hk]

/-- Witness for C10: a click resolved to key (0,0) leaves key (0,1)
untouched. -/
theorem c10_click_changes_at_most_one_key_witness :
    (onClick (initState true) (hitOn (NoteKey.mk 0 0)) 0).notes (NoteKey.mk 0 1) =
      (initState true).notes (NoteKey.mk 0 1) :=
  (c10_click_changes_at_most_one_key (initState true) (hitOn (NoteKey.mk 0 0)) 0).1
    (NoteKey.mk 0 0) (by decide) (NoteKey.mk 0 1) (by decide)

end V25

namespace Geometry

/-- Claim C9.  Every key `(octaveIndex, pitchClass)` gets the angular interval
starting at `octaveIndex·2π + pitchClass·(2π/12)` of width `2π/12`, the
radial law is `exp(b·θ)` with `b = ln 2 / (2π)`, and in particular key C3
(octave index 2, pitch class 0) starts at angle `4π`, ends at `4π + π/6`,
and has radius 4 at its start angle. -/
theorem c9_key_angles_and_radius :
    (∀ o s : ℕ,
      totalStartTheta o s = (o : ℝ) * (2 * Real.pi) + (s : ℝ) * (2 * Real.pi / 12) ∧
      totalEndTheta o s = totalStartTheta o s + 2 * Real.pi / 12) ∧
    b = Real.log 2 / (2 * Real.pi) ∧
    totalStartTheta 2 0 = 4 * Real.pi ∧
    totalEndTheta 2 0 = 4 * Real.pi + Real.pi / 6 ∧
    radius (4 * Real.pi) = 4 := by
  refine ⟨?_, rfl, ?_, ?_, ?_⟩
  · intro o s
    refine ⟨rfl, ?_⟩
    unfold totalStartTheta totalEndTheta
    ring
  · unfold totalStartTheta
    push_cast
    ring
  · unfold totalEndTheta
    push_cast
    ring
  · unfold radius b
    have hpi := Real.pi_ne_zero
    have h : Real.log 2 / (2 * Real.pi) * (4 * Real.pi) = 2 * Real.log 2 := by
      field_simp
      ring
    rw [h, two_mul, Real.exp_add, Real.exp_log (by norm_num : (0:ℝ) < 2)]
    norm_num

end Geometry

namespace V11

/-- Claim C4 (code defect).  The claim says every pointer with radius
strictly below 1 resolves to no key and is ignored; but the hit tester
computes `int(np.log2(r))`, and `int` truncates toward zero, so a radius of
3/4 (which is below the innermost octave) yields octave index 0: a click at
angle π/12 and radius 3/4 resolves to the octave-0 key (0,0) and toggles it
to highlighted with alpha 1, changing its state. -/
theorem c4_small_radius_resolves_to_octave_zero :
    (3/4 : ℝ) < 1 ∧
    octaveOfRadius (3/4) = 0 ∧
    semitoneOfAngle (Real.pi / 12) = some 0 ∧
    v11OnClick v11Init (Real.pi / 12) (3/4) (0, 0) =
      { highlighted := true, alpha := 1 } := by
  have hsem : semitoneOfAngle (Real.pi / 12) = some 0 := by
    unfold semitoneOfAngle
    have hp0 : (fun (i : ℕ) => decide ((i : ℝ) * (2 * Real.pi / 12) ≤ Real.pi / 12 ∧
        Real.pi / 12 < ((i : ℝ) + 1) * (2 * Real.pi / 12))) 0 = true := by
      show decide _ = true
      exact decide_eq_true
        ⟨by push_cast; nlinarith [Real.pi_pos],
         by push_cast; nlinarith [Real.pi_pos]⟩
    rw [show List.range 12 = 0 :: [1, 2, 3, 4, 5, 6, 7, 8, 9, 10, 11] from rfl,
        @List.find?_cons_of_pos ℕ
          (fun (i : ℕ) => decide ((i : ℝ) * (2 * Real.pi / 12) ≤ Real.pi / 12 ∧
            Real.pi / 12 < ((i : ℝ) + 1) * (2 * Real.pi / 12)))
          0 [1, 2, 3, 4, 5, 6, 7, 8, 9, 10, 11] hp0]
  have hoct : octaveOfRadius (3/4) = 0 := by
    unfold octaveOfRadius pyInt
    have hneg : Real.logb 2 ((3:ℝ)/4) < 0 :=
      Real.logb_neg one_lt_two (by norm_num) (by norm_num)
    rw [if_neg (not_le.mpr hneg)]
    rw [Int.ceil_eq_zero_iff]
    refine ⟨?_, hneg.le⟩
    have h2 : (2:ℝ) ^ (-1:ℝ) < 3/4 := by
      rw [show (-1:ℝ) = ((-1:ℤ):ℝ) by norm_num, Real.rpow_intCast]
      norm_num
    exact (Real.lt_logb_iff_rpow_lt one_lt_two (by norm_num)).mpr h2
  have hmod : pyMod (Real.pi / 12) (2 * Real.pi) = Real.pi / 12 := by
    unfold pyMod
    have hpi := Real.pi_ne_zero
    have hq : Real.pi / 12 / (2 * Real.pi) = 1 / 24 := by
      field_simp
      ring
    have hfl : ⌊(1/24 : ℝ)⌋ = 0 := by
      rw [Int.floor_eq_zero_iff]
      constructor <;> norm_num
    rw [hq, hfl]
    push_cast
    ring
  refine ⟨by norm_num, hoct, hsem, ?_⟩
  simp only [v11OnClick]
  rw [hmod, hsem, hoct]
  simp [v11Init]

end V11

end SpiralPiano
